import Mathlib

/-
Shallow embedding of the patent-search backend (src/api/main.py,
src/api/services/ollama_service.py, src/api/routes/search.py).

Conventions of the embedding:
* Python dict rows for candidate patents become the `Patent` structure with
  the same field names and the same construction sites.
* Decoded JSON values become `PyVal`; `json.loads` restricted to the brace
  span found by `extract_json_from_text` can only yield a JSON object or
  fail, so the decoder parameter has type
  `String → Option (List (String × PyVal))` (the object's items, in
  insertion order, the last duplicate key winning as in Python).
* Scores are exact rationals; Python `float` binary representation and the
  float formatting used only inside log-message strings are abstracted.
* Network effects are explicit inputs: the body text a judge endpoint
  returns, or the transport failure it raises, is a `CallOutcome`; the list
  of payloads the similarity index returns is an input; the order in which
  `asyncio.as_completed` yields the per-candidate tasks is the `arrival`
  index list (a permutation of the candidate positions in any real run).
-/

namespace PatentSearch

/-- A decoded JSON value, as produced by Python's `json.loads`. -/
inductive PyVal where
  | null
  | bool (b : Bool)
  | num (q : ℚ)
  | str (s : String)
  | arr (xs : List PyVal)
  | obj (fields : List (String × PyVal))

/-- One candidate row as built by `qdrant_search` in src/api/main.py
(lines 111-128): a dict with these keys, in this insertion order. -/
structure Patent where
  title : PyVal := PyVal.null
  abstract : PyVal := PyVal.null
  filingDate : PyVal := PyVal.null
  patentNumber : String := ""
  googlePatentUrl : Option String := none
  preview : String := ""
  file_path : PyVal := PyVal.null
  score : Option ℚ := none
  reason : PyVal := PyVal.str "Pending"

instance : Inhabited Patent := ⟨{}⟩

/-- Python truthiness of a decoded JSON value. -/
def pyTruthy : PyVal → Bool
  | PyVal.null => false
  | PyVal.bool b => b
  | PyVal.num q => decide (q ≠ 0)
  | PyVal.str s => decide (s ≠ "")
  | PyVal.arr xs => !xs.isEmpty
  | PyVal.obj fields => !fields.isEmpty

/-- Python `float(v)` on a decoded JSON value; `TypeError`/`ValueError`
(caught by the caller) is `none`.  Numeric-string parsing is the
`strToFloat` parameter. -/
def pyFloat (strToFloat : String → Option ℚ) : PyVal → Option ℚ
  | PyVal.num q => some q
  | PyVal.bool b => some (if b then 1 else 0)
  | PyVal.str s => strToFloat s
  | _ => none

/-- Python `round(q, 2)`: round half to even at two decimal places, on
exact rationals. -/
def pyRound2 (q : ℚ) : ℚ :=
  let s := q * 100
  let f : ℤ := ⌊s⌋
  let r : ℚ := s - (f : ℚ)
  let n : ℤ :=
    if (1 : ℚ) / 2 < r then f + 1
    else if r < (1 : ℚ) / 2 then f
    else if f % 2 = 0 then f else f + 1
  (n : ℚ) / 100

/-- Dict lookup on decoded JSON object items: the last duplicate key wins,
as in a Python dict built by `json.loads`. -/
def dictGet (k : String) (m : List (String × PyVal)) : Option PyVal :=
  m.reverse.lookup k

def openBrace : Char := Char.ofNat 123

def closeBrace : Char := Char.ofNat 125

/-- Index of the last occurrence of `c` in `cs`. -/
def lastIdxOf (c : Char) (cs : List Char) : Option Nat :=
  match cs.reverse.findIdx? (fun x => x == c) with
  | none => none
  | some k => some (cs.length - 1 - k)

/-- The span matched by `re.search(r'\x7b.*\x7d', text, re.DOTALL)`:
from the first opening brace that has a closing brace after it, greedily
to the last closing brace of the text. -/
def braceSpan (cs : List Char) : Option (List Char) :=
  match lastIdxOf closeBrace cs with
  | none => none
  | some j =>
    match (cs.take j).findIdx? (fun x => x == openBrace) with
    | none => none
    | some i => some ((cs.take (j + 1)).drop i)

/-- `re.sub(r'[\x00-\x1f]+', '', s)`: remove ASCII control characters. -/
def stripControlChars (cs : List Char) : List Char :=
  cs.filter (fun c => decide (32 ≤ c.toNat))

/-- `extract_json_from_text` (src/api/main.py lines 132-143): locate the
brace span, strict decode, on failure strip control characters and retry
once, on any remaining failure return `None`. -/
def extract_json_from_text (loads : String → Option (List (String × PyVal)))
    (text : String) : Option (List (String × PyVal)) :=
  match braceSpan text.toList with
  | none => none
  | some span =>
    match loads (String.mk span) with
    | some o => some o
    | none => loads (String.mk (stripControlChars span))

/-- The patent update taken on every parse failure in
`analyze_patent_with_ollama_async` (src/api/main.py lines 214-223). -/
def parseFailedUpdate (p : Patent) : Patent :=
  { p with score := none, reason := PyVal.str "Failed to parse analysis." }

/-- The numeric score extractable from a raw judge response: the decoded
object's `score` field coerced by `float`, when every stage succeeds. -/
def extractedScore (loads : String → Option (List (String × PyVal)))
    (strToFloat : String → Option ℚ) (text : String) : Option ℚ :=
  (extract_json_from_text loads text).bind (fun m =>
    (dictGet "score" m).bind (pyFloat strToFloat))

/-- `reason = analysis_json.get("reason"); if reason: ...` (lines
211-213): overwrite `reason` only when the decoded field is truthy. -/
def applyReason (m : List (String × PyVal)) (p1 : Patent) : Patent :=
  match dictGet "reason" m with
  | none => p1
  | some r => if pyTruthy r then { p1 with reason := r } else p1

/-- `patent["score"] = round(score_value, 2)` plus the reason update. -/
def applyScoreValue (m : List (String × PyVal)) (p : Patent) (q : ℚ) : Patent :=
  applyReason m { p with score := some (pyRound2 q) }

/-- `float(raw_score)` outcome handling (lines 204-218). -/
def applyFloatValue (m : List (String × PyVal)) (p : Patent) :
    Option ℚ → Patent
  | none => parseFailedUpdate p
  | some q => applyScoreValue m p q

/-- `score` lookup outcome handling (lines 202-223). -/
def applyScoreRaw (strToFloat : String → Option ℚ)
    (m : List (String × PyVal)) (p : Patent) : Option PyVal → Patent
  | none => parseFailedUpdate p
  | some raw => applyFloatValue m p (pyFloat strToFloat raw)

/-- Lines 202-223: look up `score`, coerce with `float`, degrade to the
parse-failed update whenever either step fails.
(`analysis_json and "score" in analysis_json`: an empty object is falsy
and also has no `score` key, so the truthiness test is equivalent to a
successful `score` lookup.) -/
def applyScoreField (strToFloat : String → Option ℚ)
    (m : List (String × PyVal)) (p : Patent) : Patent :=
  applyScoreRaw strToFloat m p (dictGet "score" m)

/-- The success branch of `analyze_patent_with_ollama_async`
(src/api/main.py lines 199-223): decode the response text, then extract
and apply the verdict; a failed decode degrades to `parseFailedUpdate`. -/
def applyAnalysis (loads : String → Option (List (String × PyVal)))
    (strToFloat : String → Option ℚ) (p : Patent) (text : String) : Patent :=
  match extract_json_from_text loads text with
  | none => parseFailedUpdate p
  | some m => applyScoreField strToFloat m p

/-- What one judge call does at the transport level, from the caller's
point of view.  `httpx.TimeoutException` is a subclass of
`httpx.RequestError`, so a deadline overrun and any other transport
failure reach the same `except httpx.RequestError` branch; a non-2xx
status raised by `raise_for_status` is an `httpx.HTTPStatusError`, which
is not a `RequestError` and falls to the generic `except Exception`
branch, here `otherError`. -/
inductive CallOutcome where
  | response (text : String)
  | requestError (msg : String)
  | timedOut (msg : String)
  | otherError (msg : String)
  | cancelled

/-- `asyncio.CancelledError`, re-raised unmodified by the judge client. -/
inductive CancelledError where
  | cancelled

/-- `analyze_patent_with_ollama_async` (src/api/main.py lines 146-244):
on a transport response, delegate to the parser; on `CancelledError`,
re-raise; on `httpx.RequestError` (including timeouts) or any other
exception, return the patent degraded with no score and the error message
inside the reason. -/
def analyze_patent_with_ollama_async
    (loads : String → Option (List (String × PyVal)))
    (strToFloat : String → Option ℚ)
    (outcome : CallOutcome) (patent : Patent) : Except CancelledError Patent :=
  match outcome with
  | CallOutcome.response text => Except.ok (applyAnalysis loads strToFloat patent text)
  | CallOutcome.requestError msg =>
    Except.ok { patent with score := none,
                            reason := PyVal.str ("Analysis failed or timed out: " ++ msg) }
  | CallOutcome.timedOut msg =>
    Except.ok { patent with score := none,
                            reason := PyVal.str ("Analysis failed or timed out: " ++ msg) }
  | CallOutcome.otherError msg =>
    Except.ok { patent with score := none,
                            reason := PyVal.str ("Unexpected error: " ++ msg) }
  | CallOutcome.cancelled => Except.error CancelledError.cancelled

/-- One point payload as returned by the similarity index; `patentNumber`
is already the result of `str(payload.get("patentNumber", ""))`. -/
structure QdrantPayload where
  title : PyVal := PyVal.null
  abstract : PyVal := PyVal.null
  filingDate : PyVal := PyVal.null
  patentNumber : String := ""
  file_path : PyVal := PyVal.null

/-- `patent_number.strip()` then prepend `US` unless the stripped value is
empty or already starts with `US` case-insensitively. -/
def normalizePatentNumber (s : String) : String :=
  let t := s.trim
  if t ≠ "" ∧ ¬ (t.toUpper.startsWith "US") then "US" ++ t else t

/-- `(payload.get("abstract") or "")`: the abstract when it is a truthy
value, `""` otherwise (the row construction slices it as a string). -/
def abstractOrEmpty : PyVal → String
  | PyVal.str s => s
  | _ => ""

/-- One row built by `qdrant_search` (src/api/main.py lines 112-128). -/
def qdrantToPatent (pl : QdrantPayload) : Patent :=
  let pn := normalizePatentNumber pl.patentNumber
  { title := pl.title
    abstract := pl.abstract
    filingDate := pl.filingDate
    patentNumber := pn
    googlePatentUrl :=
      if pn ≠ "" then some ("https://patents.google.com/patent/" ++ pn ++ "/en") else none
    preview := (abstractOrEmpty pl.abstract).take 400
    file_path := pl.file_path
    score := none
    reason := PyVal.str "Pending" }

/-- `qdrant_search` (src/api/main.py lines 108-129): the network search is
modeled by the payload list the index returns (already truncated by the
`limit` argument upstream); each payload becomes one pending row. -/
def qdrant_search (payloads : List QdrantPayload) : List Patent :=
  payloads.map qdrantToPatent

/-- The configuration knobs read from the environment at startup
(src/api/main.py lines 52-57), with their documented defaults. -/
structure Config where
  OLLAMA_CONCURRENCY : ℕ := 32
  QDRANT_FETCH_COUNT : ℕ := 100
  HIGH_SCORE_THRESHOLD : ℚ := 60
  MEDIUM_SCORE_THRESHOLD : ℚ := 80
  ANALYSIS_PROGRESS_INTERVAL : ℕ := 1

def defaultConfig : Config := {}

/-- One server-sent event, by kind and payload. -/
inductive Event where
  | log (message : String)
  | result (index : ℕ) (patent : Patent)
  | complete (message : String) (results : ℕ) (analyzed : ℕ)
  | error (message : String)

def isResultEvent : Event → Bool
  | Event.result _ _ => true
  | _ => false

/-- A terminal event: `complete` or `error`. -/
def isTerminal : Event → Bool
  | Event.complete _ _ _ => true
  | Event.error _ => true
  | _ => false

def resultEvents (es : List Event) : List Event := es.filter isResultEvent

def countResults (es : List Event) : ℕ := (resultEvents es).length

/-- The scores of the emitted `result` events, in emission order. -/
def resultScores (es : List Event) : List ℚ :=
  es.filterMap (fun e =>
    match e with
    | Event.result _ p => p.score
    | _ => none)

/-- The `for future in asyncio.as_completed(tasks)` loop
(src/api/main.py lines 290-309): for each completing task, in arrival
order, increment `processed`, emit a `result` event when the judged
patent carries a score, and emit a progress `log` when the interval
divides the new count.  Returns the emitted events and the final
`processed` counter. -/
def processLoop (cfg : Config) (judged : List Patent) :
    List ℕ → ℕ → List Event × ℕ
  | [], processed => ([], processed)
  | idx :: rest, processed =>
    let p := judged.getD idx default
    let processed1 := processed + 1
    let r := processLoop cfg judged rest processed1
    (((if p.score.isSome then [Event.result idx p] else []) ++
      (if cfg.ANALYSIS_PROGRESS_INTERVAL ≠ 0 ∧
          processed1 % cfg.ANALYSIS_PROGRESS_INTERVAL = 0
       then [Event.log "[ANALYZE] Processing patents..."] else [])) ++ r.1,
     r.2)

/-- The final value of the `processed` counter after the completion loop. -/
def processedTotal (cfg : Config) (judged : List Patent) (arrival : List ℕ) : ℕ :=
  (processLoop cfg judged arrival 0).2

/-- The `analyzed_patents` list at end of loop, in arrival order, with the
original candidate index of each entry kept as a ghost tag. -/
def aggregated (judged : List Patent) (arrival : List ℕ) : List (ℕ × Patent) :=
  arrival.map (fun i => (i, judged.getD i default))

/-- The sort key of line 340: the score, with `None` treated as `-1`. -/
def sortKey (x : ℕ × Patent) : ℚ := x.2.score.getD (-1)

/-- Stable insertion step for a descending sort by `key`: the incoming
element precedes the first element whose key is not larger.  Folded from
the right this realizes exactly the permutation of Python's stable
`list.sort(key=..., reverse=True)`. -/
def insertKeyDesc (key : α → ℚ) (a : α) : List α → List α
  | [] => [a]
  | b :: bs => if key b ≤ key a then a :: b :: bs else b :: insertKeyDesc key a bs

def sortKeyDesc (key : α → ℚ) (l : List α) : List α :=
  l.foldr (insertKeyDesc key) []

/-- `analyzed_patents.sort(key=..., reverse=True)` (src/api/main.py lines
339-342), applied to the arrival-ordered aggregate. -/
def finalSorted (judged : List Patent) (arrival : List ℕ) : List (ℕ × Patent) :=
  sortKeyDesc sortKey (aggregated judged arrival)

/-- The lexicographic order on tagged elements: key descending, ties by
tag ascending. -/
def lexGe (key : α → ℚ) (a b : ℕ × α) : Prop :=
  key b.2 < key a.2 ∨ (key a.2 = key b.2 ∧ a.1 ≤ b.1)

instance (key : α → ℚ) (a b : ℕ × α) : Decidable (lexGe key a b) := by
  unfold lexGe
  infer_instance

/-- Stable insertion for the lexicographic order: score descending, then
tag ascending.  Used to characterize which permutation the stable sort
picks on tagged input. -/
def insertLexDesc (key : α → ℚ) (a : ℕ × α) : List (ℕ × α) → List (ℕ × α)
  | [] => [a]
  | b :: bs => if lexGe key a b then a :: b :: bs else b :: insertLexDesc key a bs

def sortLexDesc (key : α → ℚ) (l : List (ℕ × α)) : List (ℕ × α) :=
  l.foldr (insertLexDesc key) []

/-- `scored_patents` (line 312): the arrival-ordered judgments that carry
a score.  Built before the in-place sort, so it stays in arrival order. -/
def scored_patents_list (judged : List Patent) (arrival : List ℕ) : List (ℕ × Patent) :=
  (aggregated judged arrival).filter (fun x => x.2.score.isSome)

/-- `high_confidence_total` (lines 343-345). -/
def high_confidence_total (cfg : Config) (judged : List Patent) (arrival : List ℕ) :
    List (ℕ × Patent) :=
  (scored_patents_list judged arrival).filter
    (fun x => decide (cfg.HIGH_SCORE_THRESHOLD ≤ sortKey x))

/-- `medium_confidence_total` (lines 346-348). -/
def medium_confidence_total (cfg : Config) (judged : List Patent) (arrival : List ℕ) :
    List (ℕ × Patent) :=
  (scored_patents_list judged arrival).filter
    (fun x => decide (cfg.MEDIUM_SCORE_THRESHOLD ≤ sortKey x))

/-- `top_results = high_confidence_total[:max_display_results]` (line 350).
Computed by the source and then never used: the `complete` event that
would carry it is commented out. -/
def top_results (cfg : Config) (maxDisplayResults : ℕ)
    (judged : List Patent) (arrival : List ℕ) : List (ℕ × Patent) :=
  (high_confidence_total cfg judged arrival).take maxDisplayResults

def listMin : List ℚ → ℚ
  | [] => 0
  | x :: xs => xs.foldl min x

def listMax : List ℚ → ℚ
  | [] => 0
  | x :: xs => xs.foldl max x

def pyMean (l : List ℚ) : ℚ := l.sum / (l.length : ℚ)

def insertAsc (a : ℚ) : List ℚ → List ℚ
  | [] => [a]
  | b :: bs => if a ≤ b then a :: b :: bs else b :: insertAsc a bs

def sortAsc (l : List ℚ) : List ℚ := l.foldr insertAsc []

def pyMedian (l : List ℚ) : ℚ :=
  let s := sortAsc l
  let n := s.length
  if n = 0 then 0
  else if n % 2 = 1 then s.getD (n / 2) 0
  else (s.getD (n / 2 - 1) 0 + s.getD (n / 2) 0) / 2

/-- Plain rendering of a rational for log text; Python's float formatting
is abstracted (no claim inspects log message contents). -/
def ratStr (q : ℚ) : String := toString q.num ++ "/" ++ toString q.den

def summaryMessage (low high avg med : ℚ) : String :=
  "[SUMMARY] Score range " ++ ratStr low ++ "-" ++ ratStr high ++
    ", mean=" ++ ratStr avg ++ ", median=" ++ ratStr med

/-- The scores of the arrival-ordered scored judgments (lines 312-317);
in the model every present score is numeric. -/
def scoredScores (judged : List Patent) (arrival : List ℕ) : List ℚ :=
  (arrival.map (fun i => judged.getD i default)).filterMap (fun p => p.score)

/-- The summary block (src/api/main.py lines 311-335): one `log` event
when at least one judgment carries a score, nothing otherwise. -/
def summaryEvents (judged : List Patent) (arrival : List ℕ) : List Event :=
  let scores := scoredScores judged arrival
  if scores.isEmpty then []
  else
    [Event.log (summaryMessage (listMin scores) (listMax scores)
      (pyRound2 (pyMean scores)) (pyRound2 (pyMedian scores)))]

/-- How one request's pipeline unfolds: the single-shot embed or search
stage raises, or both succeed and return the candidate rows, with
`judged` the per-candidate judge-call results (index-aligned with the
candidates) and `arrival` the completion order of the tasks. -/
inductive PipelineRun where
  | fatalAtEmbed (msg : String)
  | fatalAtSearch (msg : String)
  | ok (patents : List Patent) (judged : List Patent) (arrival : List ℕ)

/-- `event_stream` (src/api/main.py lines 247-366): the full event
sequence of one request.  A fatal failure in an up-front stage is caught
by the enclosing `except` and yields one `error` event; an empty
candidate list yields a `log` and a terminating `complete`; otherwise the
completion loop and the summary block run, the final sort and threshold
lists are computed — and no `complete` event follows, because the final
yield (lines 352-360) is commented out in the source.
`maxDisplayResults` is consequently unused on this path. -/
def event_stream (cfg : Config) (run : PipelineRun) (maxDisplayResults : ℕ) :
    List Event :=
  match run with
  | PipelineRun.fatalAtEmbed msg =>
    [Event.log "[SEARCH] Starting search...", Event.error msg]
  | PipelineRun.fatalAtSearch msg =>
    [Event.log "[SEARCH] Starting search...",
     Event.log "[SEARCH] Finding candidate patents...",
     Event.error msg]
  | PipelineRun.ok patents judged arrival =>
    Event.log "[SEARCH] Starting search..." ::
    Event.log "[SEARCH] Finding candidate patents..." ::
    (if patents.isEmpty then
      [Event.log "[SEARCH] No candidates found.",
       Event.complete "Search complete" 0 0]
    else
      Event.log "[SEARCH] Found candidates, starting analysis..." ::
      ((processLoop cfg judged arrival 0).1 ++ summaryEvents judged arrival))

/-- The dict keys of a candidate row, in insertion order: the CSV header
`list(patents[0].keys())` of `export_csv`. -/
def export_fieldnames : List String :=
  ["title", "abstract", "filingDate", "patentNumber", "googlePatentUrl",
   "preview", "file_path", "score", "reason"]

/-- A delimited file: the header row and one structured row per record
(per-cell string serialization is not inspected by any claim). -/
structure CsvFile where
  header : List String
  rows : List Patent

/-- `export_csv` (src/api/main.py lines 393-403): embed, search with
`maxDisplayResults` as the fetch limit, then build the CSV directly from
the search rows — no judging stage runs.  `list(patents[0].keys())`
raises `IndexError` when the search returned nothing. -/
def export_csv (payloads : List QdrantPayload) : Except String CsvFile :=
  let patents := qdrant_search payloads
  match patents with
  | [] => Except.error "IndexError: list index out of range"
  | _ :: _ => Except.ok { header := export_fieldnames, rows := patents }

/-- The bulk export the spec describes (section 6): run the judging
pipeline to completion and emit one row per judged candidate, each row
carrying that candidate's judgment.  Stated from the spec's words, for
comparison with `export_csv`. -/
def export_csv_specVersion (judged : List Patent) : CsvFile :=
  { header := export_fieldnames, rows := judged }

/-- The fixed port pool of src/api/services/ollama_service.py. -/
def OLLAMA_PORTS : List ℕ :=
  [11430, 11431, 11432, 11433, 11434, 11435, 11436, 11437]

def ollamaUrls (host : String) : List String :=
  OLLAMA_PORTS.map (fun p => host ++ ":" ++ toString p ++ "/api/generate")

/-- The shared rotation cursor behind `itertools.cycle(OLLAMA_URLS)`. -/
structure CycleState where
  cursor : ℕ

/-- `get_next_ollama_url`: return the cursor's endpoint and advance the
shared cycle (on an empty pool, `next` would raise: `none`). -/
def get_next_ollama_url (urls : List String) (s : CycleState) :
    Option String × CycleState :=
  (urls.get? (s.cursor % urls.length), ⟨s.cursor + 1⟩)

/-- The endpoints chosen by `m` sequential calls with no concurrency,
starting from cycle state `s`. -/
def selections (urls : List String) : ℕ → CycleState → List (Option String)
  | 0, _ => []
  | Nat.succ n, s =>
    let r := get_next_ollama_url urls s
    r.1 :: selections urls n r.2

/-! Concrete sample inputs used by witnesses and counterexamples. -/

def emptyPatent : Patent := {}

def sampleText : String := "\x7b\"score\": 90\x7d"

/-- A concrete decoder instantiating the `json.loads` parameter: it
decodes `sampleText` and nothing else. -/
def sampleLoads : String → Option (List (String × PyVal)) :=
  fun s => if s = sampleText then some [("score", PyVal.num 90)] else none

def sampleStrToFloat : String → Option ℚ := fun _ => none

def samplePayload : QdrantPayload := { patentNumber := "1234567" }

def p10 : Patent := { score := some 10 }

def p50 : Patent := { score := some 50 }

def p90 : Patent := { score := some 90 }

def p95 : Patent := { score := some 95 }

/-- The judged row the pipeline produces for `samplePayload` when the
judge endpoint answers `sampleText`. -/
def judgedSample : Patent :=
  applyAnalysis sampleLoads sampleStrToFloat (qdrantToPatent samplePayload)
    sampleText

/-- The end-of-stream sort the claim describes, stated from its words:
score descending with missing scores as `-1`, ties broken by original
candidate index ascending. -/
def insertSpecOrder (a : ℕ × Patent) : List (ℕ × Patent) → List (ℕ × Patent)
  | [] => [a]
  | b :: bs =>
    if sortKey b < sortKey a ∨ (sortKey a = sortKey b ∧ a.1 ≤ b.1)
    then a :: b :: bs else b :: insertSpecOrder a bs

def specSort (l : List (ℕ × Patent)) : List (ℕ × Patent) :=
  l.foldr insertSpecOrder []

/-- C7: for every candidate, a transport failure or an exceeded deadline
makes the judge client return a degraded verdict — score absent, the
error message inside the reason — and the client never raises past its
boundary for any non-cancellation outcome, while caller-initiated
cancellation propagates unmodified. -/
theorem C7_judge_failure_boundary
    (loads : String → Option (List (String × PyVal)))
    (stf : String → Option ℚ) (p : Patent) (msg : String) :
    analyze_patent_with_ollama_async loads stf (CallOutcome.requestError msg) p =
      Except.ok { p with score := none,
                         reason := PyVal.str ("Analysis failed or timed out: " ++ msg) }
    ∧ analyze_patent_with_ollama_async loads stf (CallOutcome.timedOut msg) p =
      Except.ok { p with score := none,
                         reason := PyVal.str ("Analysis failed or timed out: " ++ msg) }
    ∧ analyze_patent_with_ollama_async loads stf CallOutcome.cancelled p =
      Except.error CancelledError.cancelled
    ∧ ∀ o : CallOutcome, o ≠ CallOutcome.cancelled →
        ∃ q, analyze_patent_with_ollama_async loads stf o p = Except.ok q := by
  refine ⟨rfl, rfl, rfl, ?_⟩
  intro o ho
  cases o with
  | response t => exact ⟨_, rfl⟩
  | requestError m => exact ⟨_, rfl⟩
  | timedOut m => exact ⟨_, rfl⟩
  | otherError m => exact ⟨_, rfl⟩
  | cancelled => exact absurd rfl ho

/-- C7 witness at a concrete failing call. -/
theorem C7_judge_failure_boundary_witness :
    analyze_patent_with_ollama_async sampleLoads sampleStrToFloat
      (CallOutcome.requestError "connection refused") emptyPatent =
      Except.ok { emptyPatent with
                  score := none,
                  reason := PyVal.str
                    ("Analysis failed or timed out: " ++ "connection refused") }
    ∧ ∃ q, analyze_patent_with_ollama_async sampleLoads sampleStrToFloat
        (CallOutcome.otherError "boom") emptyPatent = Except.ok q :=
  ⟨(C7_judge_failure_boundary sampleLoads sampleStrToFloat emptyPatent
      "connection refused").1,
   (C7_judge_failure_boundary sampleLoads sampleStrToFloat emptyPatent
      "boom").2.2.2 (CallOutcome.otherError "boom")
      (fun h => CallOutcome.noConfusion h)⟩

/-- C8: verdict parsing is a pure function — the same raw text always
yields the same result — it always returns (never raises), any input from
which no numeric score can be extracted yields the parse-failed verdict
(score absent, failure reason), and an extractable score is what the
verdict carries, rounded to two decimals. -/
theorem C8_parser_total_idempotent
    (loads : String → Option (List (String × PyVal)))
    (stf : String → Option ℚ) (text : String) (p : Patent) :
    extract_json_from_text loads text = extract_json_from_text loads text
    ∧ (extractedScore loads stf text = none →
        applyAnalysis loads stf p text = parseFailedUpdate p)
    ∧ (∀ q, extractedScore loads stf text = some q →
        (applyAnalysis loads stf p text).score = some (pyRound2 q)) := by
  refine ⟨rfl, ?_, ?_⟩
  · intro h
    unfold extractedScore at h
    unfold applyAnalysis
    cases hex : extract_json_from_text loads text with
    | none => rfl
    | some m =>
      rw [hex] at h
      simp only [Option.some_bind] at h
      show applyScoreField stf m p = parseFailedUpdate p
      unfold applyScoreField
      cases hsc : dictGet "score" m with
      | none => rfl
      | some raw =>
        rw [hsc] at h
        simp only [Option.some_bind] at h
        show applyFloatValue m p (pyFloat stf raw) = parseFailedUpdate p
        rw [h]
        rfl
  · intro q hq
    unfold extractedScore at hq
    unfold applyAnalysis
    cases hex : extract_json_from_text loads text with
    | none => rw [hex] at hq; exact absurd hq (by simp)
    | some m =>
      rw [hex] at hq
      simp only [Option.some_bind] at hq
      show (applyScoreField stf m p).score = some (pyRound2 q)
      unfold applyScoreField
      cases hsc : dictGet "score" m with
      | none => rw [hsc] at hq; exact absurd hq (by simp)
      | some raw =>
        rw [hsc] at hq
        simp only [Option.some_bind] at hq
        show (applyFloatValue m p (pyFloat stf raw)).score = some (pyRound2 q)
        rw [hq]
        show (applyScoreValue m p q).score = some (pyRound2 q)
        unfold applyScoreValue applyReason
        cases hr : dictGet "reason" m with
        | none => rfl
        | some r =>
          by_cases ht : pyTruthy r
          · simp [ht]
          · simp [ht]

/-- C8 witness: a malformed input (no brace span) parses to the
parse-failed verdict. -/
theorem C8_parser_total_idempotent_witness :
    applyAnalysis sampleLoads sampleStrToFloat emptyPatent "no json here" =
      parseFailedUpdate emptyPatent :=
  (C8_parser_total_idempotent sampleLoads sampleStrToFloat
    "no json here" emptyPatent).2.1 rfl

theorem selections_eq (urls : List String) (M : ℕ) : ∀ c : ℕ,
    selections urls M ⟨c⟩ =
      (List.range M).map (fun i => urls.get? ((c + i) % urls.length)) := by
  induction M with
  | zero => intro c; rfl
  | succ n ih =>
    intro c
    rw [List.range_succ_eq_map]
    show urls.get? (c % urls.length) :: selections urls n ⟨c + 1⟩ = _
    rw [ih (c + 1)]
    simp only [List.map_cons, List.map_map, Nat.add_zero, List.cons.injEq]
    refine ⟨trivial, ?_⟩
    apply List.map_congr_left
    intro a _
    simp only [Function.comp]
    rw [Nat.add_right_comm, Nat.add_assoc]

/-- C9: with a pool of `K` endpoints and `M` sequential calls with no
concurrency, the selector cycles through the pool in order with period
`K`: call `i` selects endpoint `i mod K`, and calls `i` and `i + K`
select the same endpoint. -/
theorem C9_round_robin_period (urls : List String) (M i : ℕ)
    (h : i + urls.length < M) :
    (selections urls M ⟨0⟩).get? (i + urls.length) =
      (selections urls M ⟨0⟩).get? i
    ∧ (selections urls M ⟨0⟩).get? i = some (urls.get? (i % urls.length)) := by
  have hi : i < M := lt_of_le_of_lt (Nat.le_add_right i urls.length) h
  rw [selections_eq urls M 0]
  constructor
  · rw [List.get?_map, List.get?_map, List.get?_range h, List.get?_range hi]
    simp [Nat.add_mod_right]
  · rw [List.get?_map, List.get?_range hi]
    simp

/-- C9 witness on the repository's eight-endpoint pool. -/
theorem C9_round_robin_period_witness :
    (selections (ollamaUrls "http://host.docker.internal") 20 ⟨0⟩).get?
        (3 + (ollamaUrls "http://host.docker.internal").length) =
      (selections (ollamaUrls "http://host.docker.internal") 20 ⟨0⟩).get? 3
    ∧ (selections (ollamaUrls "http://host.docker.internal") 20 ⟨0⟩).get? 3 =
      some ((ollamaUrls "http://host.docker.internal").get?
        (3 % (ollamaUrls "http://host.docker.internal").length)) :=
  C9_round_robin_period (ollamaUrls "http://host.docker.internal") 20 3
    (by decide)

theorem resultEvents_cons_log (msg : String) (es : List Event) :
    resultEvents (Event.log msg :: es) = resultEvents es := rfl

theorem resultEvents_append (a b : List Event) :
    resultEvents (a ++ b) = resultEvents a ++ resultEvents b := by
  simp [resultEvents, List.filter_append]

theorem resultEvents_progressLog (cfg : Config) (n : ℕ) :
    resultEvents (if cfg.ANALYSIS_PROGRESS_INTERVAL ≠ 0 ∧
        n % cfg.ANALYSIS_PROGRESS_INTERVAL = 0
      then [Event.log "[ANALYZE] Processing patents..."] else []) = [] := by
  split <;> rfl

theorem resultEvents_resultBlock (idx : ℕ) (p : Patent) :
    resultEvents (if p.score.isSome then [Event.result idx p] else []) =
      if p.score.isSome then [Event.result idx p] else [] := by
  split <;> rfl

theorem resultEvents_summaryEvents (judged : List Patent) (arrival : List ℕ) :
    resultEvents (summaryEvents judged arrival) = [] := by
  by_cases h : (scoredScores judged arrival).isEmpty
  · simp [summaryEvents, resultEvents, h]
  · simp [summaryEvents, resultEvents, h, isResultEvent]

/-- The `result` events of the completion loop are exactly the scored
judgments, in arrival order. -/
theorem resultEvents_processLoop (cfg : Config) (judged : List Patent) :
    ∀ (l : List ℕ) (c : ℕ),
    resultEvents (processLoop cfg judged l c).1 =
      (l.filter (fun i => ((judged.getD i default).score).isSome)).map
        (fun i => Event.result i (judged.getD i default)) := by
  intro l
  induction l with
  | nil => intro c; rfl
  | cons idx rest ih =>
    intro c
    show resultEvents
        (((if (judged.getD idx default).score.isSome
            then [Event.result idx (judged.getD idx default)] else []) ++
          (if cfg.ANALYSIS_PROGRESS_INTERVAL ≠ 0 ∧
              (c + 1) % cfg.ANALYSIS_PROGRESS_INTERVAL = 0
            then [Event.log "[ANALYZE] Processing patents..."] else [])) ++
          (processLoop cfg judged rest (c + 1)).1) = _
    rw [resultEvents_append, resultEvents_append, resultEvents_progressLog,
        resultEvents_resultBlock, ih (c + 1), List.append_nil, List.filter_cons]
    by_cases hs : (judged.getD idx default).score.isSome
    · rw [if_pos hs, if_pos hs, List.map_cons]
      rfl
    · rw [if_neg hs, if_neg hs]
      rfl

theorem processLoop_processed (cfg : Config) (judged : List Patent) :
    ∀ (l : List ℕ) (c : ℕ), (processLoop cfg judged l c).2 = c + l.length := by
  intro l
  induction l with
  | nil => intro c; simp [processLoop]
  | cons idx rest ih =>
    intro c
    show (processLoop cfg judged rest (c + 1)).2 = c + (idx :: rest).length
    rw [ih (c + 1)]
    simp
    omega

/-- The event list of a run whose search returned candidates. -/
theorem event_stream_ok_nonempty (cfg : Config) (patents judged : List Patent)
    (arrival : List ℕ) (m : ℕ) (h : patents.isEmpty = false) :
    event_stream cfg (PipelineRun.ok patents judged arrival) m =
      Event.log "[SEARCH] Starting search..." ::
      Event.log "[SEARCH] Finding candidate patents..." ::
      Event.log "[SEARCH] Found candidates, starting analysis..." ::
      ((processLoop cfg judged arrival 0).1 ++ summaryEvents judged arrival) := by
  simp [event_stream, h]

/-- C1 (the code as it stands): a run whose search returned one candidate
that the judge scored 90 emits six events and not a single terminal
(`complete` or `error`) event — the stream just ends, because the final
`complete` yield at src/api/main.py lines 352-360 is commented out. -/
theorem C1_no_terminal_event_on_completion :
    (event_stream defaultConfig (PipelineRun.ok [emptyPatent] [p90] [0]) 15).length = 6
    ∧ ((event_stream defaultConfig
        (PipelineRun.ok [emptyPatent] [p90] [0]) 15).filter isTerminal).length = 0 := by
  constructor
  · rfl
  · rfl

/-- C2 counterexample: with `resultLimit = 1` and two scored candidates,
the stream emits two `result` events, exceeding the requested limit. -/
theorem C2_counterexample_limit_exceeded :
    countResults (event_stream defaultConfig
      (PipelineRun.ok [emptyPatent, emptyPatent] [p90, p95] [0, 1]) 1) = 2
    ∧ ¬ (countResults (event_stream defaultConfig
        (PipelineRun.ok [emptyPatent, emptyPatent] [p90, p95] [0, 1]) 1) ≤ 1) := by
  constructor
  · rfl
  · decide

/-- C2 as amended: the loop emits one `result` event per completed
judgment that carries a score; since every candidate is judged exactly
once, the count is the number of scored judgments, bounded by the number
of fetched candidates — the caller's `maxDisplayResults` plays no role. -/
theorem C2_amended_result_count (cfg : Config) (m : ℕ)
    (patents judged : List Patent) (arrival : List ℕ)
    (hne : patents.isEmpty = false)
    (hperm : arrival.Perm (List.range judged.length)) :
    countResults (event_stream cfg (PipelineRun.ok patents judged arrival) m) =
      (arrival.filter (fun i => ((judged.getD i default).score).isSome)).length
    ∧ countResults (event_stream cfg (PipelineRun.ok patents judged arrival) m) ≤
        judged.length := by
  have h1 : countResults (event_stream cfg (PipelineRun.ok patents judged arrival) m) =
      (arrival.filter (fun i => ((judged.getD i default).score).isSome)).length := by
    unfold countResults
    rw [event_stream_ok_nonempty cfg patents judged arrival m hne,
        resultEvents_cons_log, resultEvents_cons_log, resultEvents_cons_log,
        resultEvents_append, resultEvents_processLoop, resultEvents_summaryEvents,
        List.append_nil, List.length_map]
  refine ⟨h1, ?_⟩
  rw [h1]
  calc (arrival.filter _).length ≤ arrival.length := List.length_filter_le _ _
    _ = (List.range judged.length).length := hperm.length_eq
    _ = judged.length := List.length_range _

/-- C2 amended witness. -/
theorem C2_amended_result_count_witness :
    countResults (event_stream defaultConfig
      (PipelineRun.ok [emptyPatent] [p90] [0]) 15) =
      (([0] : List ℕ).filter
        (fun i => ((([p90] : List Patent).getD i default).score).isSome)).length
    ∧ countResults (event_stream defaultConfig
        (PipelineRun.ok [emptyPatent] [p90] [0]) 15) ≤ ([p90] : List Patent).length :=
  C2_amended_result_count defaultConfig 15 [emptyPatent] [p90] [0] rfl
    (List.Perm.refl [0])

/-- C3 counterexample: a request with `resultLimit = 1` in which both of
the two candidates score at or above the high threshold, yet the pipeline
still awaits both judge calls — the processed count equals the candidate
count and is never strictly smaller. -/
theorem C3_counterexample_no_early_termination :
    (high_confidence_total defaultConfig [p90, p95] [0, 1]).length = 2
    ∧ 1 ≤ (high_confidence_total defaultConfig [p90, p95] [0, 1]).length
    ∧ processedTotal defaultConfig [p90, p95] [0, 1] = 2
    ∧ ¬ (processedTotal defaultConfig [p90, p95] [0, 1] <
          ([p90, p95] : List Patent).length) := by
  refine ⟨by decide, by decide, rfl, by decide⟩

/-- C3 as amended: the pipeline has no early-stop signal at all — the
completion loop always awaits every candidate's judge call, so the number
of processed judgments always equals the number of candidates. -/
theorem C3_amended_all_judgments_processed (cfg : Config)
    (judged : List Patent) (arrival : List ℕ)
    (hperm : arrival.Perm (List.range judged.length)) :
    processedTotal cfg judged arrival = judged.length := by
  unfold processedTotal
  rw [processLoop_processed cfg judged arrival 0, Nat.zero_add,
      hperm.length_eq, List.length_range]

/-- C3 amended witness. -/
theorem C3_amended_all_judgments_processed_witness :
    processedTotal defaultConfig [p90, p95] [0, 1] =
      ([p90, p95] : List Patent).length :=
  C3_amended_all_judgments_processed defaultConfig [p90, p95] [0, 1]
    (List.Perm.refl [0, 1])

/-- C4 counterexample: with the default high threshold of 60, a run whose
judgments score 10 then 90 emits a `result` event with score 10 (below
the threshold) followed by one with score 90 (increasing order): emitted
results are neither threshold-filtered nor sorted. -/
theorem C4_counterexample_unfiltered_unsorted :
    resultScores (event_stream defaultConfig
      (PipelineRun.ok [emptyPatent, emptyPatent] [p10, p90] [0, 1]) 15) = [10, 90]
    ∧ ¬ ((∀ q ∈ resultScores (event_stream defaultConfig
          (PipelineRun.ok [emptyPatent, emptyPatent] [p10, p90] [0, 1]) 15),
          defaultConfig.HIGH_SCORE_THRESHOLD ≤ q)
        ∧ (resultScores (event_stream defaultConfig
            (PipelineRun.ok [emptyPatent, emptyPatent] [p10, p90] [0, 1]) 15)).Chain'
            (fun a b => b ≤ a)) := by
  constructor
  · rfl
  · decide

/-- C4 as amended: every emitted `result` event carries a present score
(no threshold is applied), and the emitted sequence is exactly the scored
judgments in completion order — not sorted by score. -/
theorem C4_amended_results_follow_completion_order (cfg : Config) (m : ℕ)
    (patents judged : List Patent) (arrival : List ℕ)
    (hne : patents.isEmpty = false) :
    resultEvents (event_stream cfg (PipelineRun.ok patents judged arrival) m) =
      (arrival.filter (fun i => ((judged.getD i default).score).isSome)).map
        (fun i => Event.result i (judged.getD i default))
    ∧ ∀ e ∈ resultEvents (event_stream cfg (PipelineRun.ok patents judged arrival) m),
        ∃ i p1, e = Event.result i p1 ∧ p1.score.isSome = true := by
  have h1 : resultEvents (event_stream cfg (PipelineRun.ok patents judged arrival) m) =
      (arrival.filter (fun i => ((judged.getD i default).score).isSome)).map
        (fun i => Event.result i (judged.getD i default)) := by
    rw [event_stream_ok_nonempty cfg patents judged arrival m hne,
        resultEvents_cons_log, resultEvents_cons_log, resultEvents_cons_log,
        resultEvents_append, resultEvents_processLoop, resultEvents_summaryEvents,
        List.append_nil]
  refine ⟨h1, ?_⟩
  intro e he
  rw [h1] at he
  obtain ⟨i, hi, rfl⟩ := List.mem_map.mp he
  exact ⟨i, judged.getD i default, rfl, (List.mem_filter.mp hi).2⟩

/-- C4 amended witness. -/
theorem C4_amended_results_follow_completion_order_witness :
    resultEvents (event_stream defaultConfig
      (PipelineRun.ok [emptyPatent] [p90] [0]) 15) =
      (([0] : List ℕ).filter
        (fun i => ((([p90] : List Patent).getD i default).score).isSome)).map
        (fun i => Event.result i (([p90] : List Patent).getD i default)) :=
  (C4_amended_results_follow_completion_order defaultConfig 15 [emptyPatent]
    [p90] [0] rfl).1

theorem insertLexDesc_perm (key : α → ℚ) (a : ℕ × α) :
    ∀ l : List (ℕ × α), (insertLexDesc key a l).Perm (a :: l) := by
  intro l
  induction l with
  | nil => exact List.Perm.refl _
  | cons b bs ih =>
    unfold insertLexDesc
    by_cases hc : lexGe key a b
    · rw [if_pos hc]
    · rw [if_neg hc]
      exact (ih.cons b).trans (List.Perm.swap a b bs)

theorem sortLexDesc_perm (key : α → ℚ) :
    ∀ l : List (ℕ × α), (sortLexDesc key l).Perm l := by
  intro l
  induction l with
  | nil => exact List.Perm.refl _
  | cons a l ih =>
    show (insertLexDesc key a (sortLexDesc key l)).Perm (a :: l)
    exact (insertLexDesc_perm key a (sortLexDesc key l)).trans (ih.cons a)

theorem lexGe_trans (key : α → ℚ) (a b c : ℕ × α)
    (h1 : lexGe key a b) (h2 : lexGe key b c) : lexGe key a c := by
  rcases h1 with h1 | ⟨h1e, h1i⟩ <;> rcases h2 with h2 | ⟨h2e, h2i⟩
  · exact Or.inl (h2.trans h1)
  · exact Or.inl (h2e ▸ h1)
  · exact Or.inl (lt_of_lt_of_le h2 (le_of_eq h1e.symm))
  · exact Or.inr ⟨h1e.trans h2e, le_trans h1i h2i⟩

theorem lexGe_of_not_lexGe (key : α → ℚ) (a b : ℕ × α)
    (h : ¬ lexGe key a b) : lexGe key b a := by
  unfold lexGe at h ⊢
  push_neg at h
  obtain ⟨h1, h2⟩ := h
  rcases lt_or_eq_of_le h1 with hlt | heq
  · exact Or.inl hlt
  · exact Or.inr ⟨heq.symm, le_of_lt (h2 heq)⟩

theorem pairwise_insertLexDesc (key : α → ℚ) (a : ℕ × α) :
    ∀ l : List (ℕ × α), l.Pairwise (lexGe key) →
      (insertLexDesc key a l).Pairwise (lexGe key) := by
  intro l
  induction l with
  | nil => intro _; simp [insertLexDesc]
  | cons b bs ih =>
    intro hp
    have hp' := List.pairwise_cons.mp hp
    unfold insertLexDesc
    by_cases hc : lexGe key a b
    · rw [if_pos hc]
      refine List.pairwise_cons.mpr ⟨?_, hp⟩
      intro x hx
      rcases List.mem_cons.mp hx with rfl | hxbs
      · exact hc
      · exact lexGe_trans key a b x hc (hp'.1 x hxbs)
    · rw [if_neg hc]
      refine List.pairwise_cons.mpr ⟨?_, ih hp'.2⟩
      intro x hx
      have hmem := (insertLexDesc_perm key a bs).subset hx
      rcases List.mem_cons.mp hmem with rfl | hxbs
      · exact lexGe_of_not_lexGe key _ _ hc
      · exact hp'.1 x hxbs

theorem pairwise_sortLexDesc (key : α → ℚ) :
    ∀ l : List (ℕ × α), (sortLexDesc key l).Pairwise (lexGe key) := by
  intro l
  induction l with
  | nil => simp [sortLexDesc]
  | cons a l ih =>
    show (insertLexDesc key a (sortLexDesc key l)).Pairwise (lexGe key)
    exact pairwise_insertLexDesc key a _ ih

theorem map_snd_insertLexDesc (key : α → ℚ) (a : ℕ × α) :
    ∀ l : List (ℕ × α), (∀ x ∈ l, a.1 < x.1) →
      (insertLexDesc key a l).map Prod.snd =
        insertKeyDesc key a.2 (l.map Prod.snd) := by
  intro l
  induction l with
  | nil => intro _; rfl
  | cons b bs ih =>
    intro hlt
    show (if lexGe key a b then a :: b :: bs else b :: insertLexDesc key a bs).map
        Prod.snd =
      if key b.2 ≤ key a.2
      then a.2 :: b.2 :: bs.map Prod.snd
      else b.2 :: insertKeyDesc key a.2 (bs.map Prod.snd)
    by_cases hc : lexGe key a b
    · have hle : key b.2 ≤ key a.2 := by
        rcases hc with h | ⟨h, _⟩
        · exact le_of_lt h
        · exact le_of_eq h.symm
      rw [if_pos hc, if_pos hle]
      rfl
    · have hnle : ¬ key b.2 ≤ key a.2 := by
        intro hle
        rcases lt_or_eq_of_le hle with h | h
        · exact hc (Or.inl h)
        · exact hc (Or.inr ⟨h.symm, le_of_lt (hlt b (List.mem_cons_self b bs))⟩)
      rw [if_neg hc, if_neg hnle, List.map_cons,
          ih (fun x hx => hlt x (List.mem_cons_of_mem b hx))]

theorem le_fst_of_mem_enumFrom :
    ∀ (l : List α) (n : ℕ) (x : ℕ × α), x ∈ l.enumFrom n → n ≤ x.1 := by
  intro l
  induction l with
  | nil => intro n x hx; exact absurd hx (List.not_mem_nil x)
  | cons a l ih =>
    intro n x hx
    rcases List.mem_cons.mp hx with rfl | hx'
    · exact le_refl n
    · exact le_trans (Nat.le_succ n) (ih (n + 1) x hx')

/-- The stable descending sort is the lexicographic sort of the
position-tagged list, with the tags erased. -/
theorem sortKeyDesc_eq_map_sortLexDesc_enumFrom (key : α → ℚ) :
    ∀ (l : List α) (k : ℕ),
      (sortLexDesc key (l.enumFrom k)).map Prod.snd = sortKeyDesc key l := by
  intro l
  induction l with
  | nil => intro k; rfl
  | cons a l ih =>
    intro k
    show (insertLexDesc key (k, a)
        (sortLexDesc key (l.enumFrom (k + 1)))).map Prod.snd =
      insertKeyDesc key a (sortKeyDesc key l)
    rw [map_snd_insertLexDesc key (k, a) (sortLexDesc key (l.enumFrom (k + 1)))
        (fun x hx => lt_of_lt_of_le (Nat.lt_succ_self k)
          (le_fst_of_mem_enumFrom l (k + 1) x
            ((sortLexDesc_perm key (l.enumFrom (k + 1))).subset hx))),
        ih (k + 1)]

/-- C5 counterexample: two judgments with equal score 50, completion
order `[1, 0]`.  The code's end-of-stream sort keeps them in completion
order, indices `[1, 0]`, while a sort breaking ties by original candidate
index ascending — as the claim states — would produce `[0, 1]`. -/
theorem C5_counterexample_tie_break :
    ((finalSorted [p50, p50] [1, 0]).map Prod.fst) = [1, 0]
    ∧ sortKey (0, p50) = sortKey (1, p50)
    ∧ ((specSort (aggregated [p50, p50] [1, 0])).map Prod.fst) = [0, 1]
    ∧ (([1, 0] : List ℕ) ≠ [0, 1]) := by
  refine ⟨by decide, by decide, by decide, by decide⟩

/-- C5 as amended: at end of stream the retained judgments are sorted by
score descending with unscored judgments treated as score `-1`, but score
ties are broken by completion (arrival) order, not by original candidate
index: the sorted list is exactly the lexicographic (score descending,
arrival position ascending) ordering of the arrival-ordered aggregate. -/
theorem C5_amended_sort_ties_by_completion_order
    (judged : List Patent) (arrival : List ℕ) :
    finalSorted judged arrival =
      (sortLexDesc sortKey ((aggregated judged arrival).enum)).map Prod.snd
    ∧ (sortLexDesc sortKey ((aggregated judged arrival).enum)).Perm
        ((aggregated judged arrival).enum)
    ∧ (sortLexDesc sortKey ((aggregated judged arrival).enum)).Pairwise
        (lexGe sortKey) := by
  refine ⟨?_, sortLexDesc_perm _ _, pairwise_sortLexDesc _ _⟩
  unfold finalSorted
  rw [← sortKeyDesc_eq_map_sortLexDesc_enumFrom sortKey
      (aggregated judged arrival) 0]
  rfl

/-- C6 counterexample: for a search that returns one candidate whose
judge call would answer `sampleText` (score 90), the export endpoint's
row carries no score at all, while a row carrying the candidate's
judgment — as the claim states — would carry score 90: `export_csv` does
not run the judging stage. -/
theorem C6_counterexample_export_skips_judging :
    ((export_csv [samplePayload]).map (fun c => c.rows.map (fun r => r.score))) =
      Except.ok [none]
    ∧ (export_csv_specVersion [judgedSample]).rows.map (fun r => r.score) =
      [some 90]
    ∧ ((none : Option ℚ) ≠ some 90) := by
  refine ⟨rfl, ?_, by simp⟩
  show [judgedSample.score] = [some 90]
  have h1 : judgedSample.score = some (pyRound2 90) := rfl
  have h2 : pyRound2 90 = 90 := by
    simp only [pyRound2]
    norm_num
  rw [h1, h2]

/-- C6 as amended: the bulk export endpoint runs only the embedding and
retrieval stages — no judging — and returns a delimited file with one row
per retrieved candidate, each row carrying the unjudged placeholder
(score absent, reason `Pending`). -/
theorem C6_amended_export_rows_unjudged (payloads : List QdrantPayload)
    (h : payloads ≠ []) :
    export_csv payloads =
      Except.ok ⟨export_fieldnames, qdrant_search payloads⟩
    ∧ ∀ r ∈ qdrant_search payloads,
        r.score = none ∧ r.reason = PyVal.str "Pending" := by
  constructor
  · cases payloads with
    | nil => exact absurd rfl h
    | cons a l => rfl
  · intro r hr
    obtain ⟨pl, _, rfl⟩ := List.mem_map.mp hr
    exact ⟨rfl, rfl⟩

/-- C6 amended witness. -/
theorem C6_amended_export_rows_unjudged_witness :
    export_csv [samplePayload] =
      Except.ok ⟨export_fieldnames, qdrant_search [samplePayload]⟩
    ∧ ∀ r ∈ qdrant_search [samplePayload],
        r.score = none ∧ r.reason = PyVal.str "Pending" :=
  C6_amended_export_rows_unjudged [samplePayload] (by simp)

/-- C10: the export endpoint is total only on non-empty search results —
a search that yields at least one candidate produces a CSV with the
header row and one row per candidate, while zero candidates raise an
unhandled `IndexError` from `patents[0]` instead of returning an empty
CSV. -/
theorem C10_export_empty_search_raises (payloads : List QdrantPayload) :
    (payloads = [] →
      export_csv payloads = Except.error "IndexError: list index out of range")
    ∧ (payloads ≠ [] →
      ∃ c, export_csv payloads = Except.ok c
        ∧ c.header = export_fieldnames
        ∧ c.rows.length = payloads.length) := by
  constructor
  · rintro rfl
    rfl
  · intro h
    cases payloads with
    | nil => exact absurd rfl h
    | cons a l =>
      refine ⟨⟨export_fieldnames, qdrant_search (a :: l)⟩, rfl, rfl, ?_⟩
      simp [qdrant_search]

/-- C10 witness: the empty search raises; a one-candidate search exports
one row. -/
theorem C10_export_empty_search_raises_witness :
    export_csv [] = Except.error "IndexError: list index out of range"
    ∧ ∃ c, export_csv [samplePayload] = Except.ok c
        ∧ c.header = export_fieldnames
        ∧ c.rows.length = ([samplePayload] : List QdrantPayload).length :=
  ⟨(C10_export_empty_search_raises []).1 rfl,
   (C10_export_empty_search_raises [samplePayload]).2 (by simp)⟩

end PatentSearch
